import Mathlib

/-!
# Verification of the segment-mapping pipeline

Shallow embedding of the slide/segment mapping code of the repository
(`src/segment_mapping.py` and the realtime API endpoints in
`api/realtime.py`), together with proofs and refutations of the frozen
specification claims.

Python strings are modelled as Lean `String`s (sequences of unicode
scalar values, matching Python's `len`/indexing on code points for the
texts involved).  Python `dict`s that the code builds by insertion and
mutates key-by-key are modelled as insertion-ordered association lists.
-/

namespace SegMap

/-! ## Python string primitives -/

/-- Decimal digit characters of a natural number, most significant
first, driven by a fuel argument so that the definition is structural
(and hence evaluates inside the kernel).  `fuel` strictly exceeds the
number of digits at every call through `decDigits`. -/
def decDigitsAux : Nat → Nat → List Char
  | 0, _ => []
  | fuel + 1, n =>
    if n < 10 then [Nat.digitChar n]
    else decDigitsAux fuel (n / 10) ++ [Nat.digitChar (n % 10)]

/-- Decimal digit characters of a natural number, most significant first.
Models the digits of Python `str(n)` for `n : Nat`. -/
def decDigits (n : Nat) : List Char := decDigitsAux (n + 1) n

/-- Python `str(n)` for a natural number. -/
def decStr (n : Nat) : String := ⟨decDigits n⟩

/-- Python `str(i)` for an integer: optional minus sign followed by the
decimal digits of the absolute value. -/
def intStr (i : Int) : String :=
  if i < 0 then "-" ++ decStr (-i).toNat else decStr i.toNat

/-- The whitespace characters recognised by Python's `str.split()` /
`str.strip()` (ASCII part; the texts involved contain no other
unicode whitespace). -/
def pyIsSpace (c : Char) : Bool :=
  c = ' ' || c = '\t' || c = '\n' || c = '\r' || c = '\x0b' || c = '\x0c'

/-- Python `str.strip()` on the character list. -/
def pyStripList (l : List Char) : List Char :=
  ((l.dropWhile pyIsSpace).reverse.dropWhile pyIsSpace).reverse

/-- Python `str.strip()`. -/
def pyStrip (s : String) : String := ⟨pyStripList s.data⟩

/-- Helper for `pySplit`: walk the characters, accumulating the current
word (reversed) in `acc`. -/
def pySplitAux : List Char → List Char → List (List Char)
  | [], acc => if acc.isEmpty then [] else [acc.reverse]
  | c :: cs, acc =>
    if pyIsSpace c then
      if acc.isEmpty then pySplitAux cs []
      else acc.reverse :: pySplitAux cs []
    else pySplitAux cs (c :: acc)

/-- Python `str.split()` (no argument): split on runs of whitespace,
discarding empty words. -/
def pySplit (s : String) : List String :=
  (pySplitAux s.data []).map fun l => ⟨l⟩

/-- Python `" ".join(s.split())`: collapse runs of whitespace to single
spaces and trim the ends. -/
def normalizeWs (s : String) : String :=
  String.intercalate " " (pySplit s)

/-- Helper for `pyReplace`: replace every leftmost non-overlapping
occurrence of the nonempty pattern `p :: ps` by `rep`, scanning left to
right.  Driven by a fuel argument (every call supplies at least the
length of the scanned list, and each step consumes at least one
character) so that the definition is structural and evaluates inside the
kernel. -/
def replaceAux (p : Char) (ps rep : List Char) : Nat → List Char → List Char
  | 0, l => l
  | _ + 1, [] => []
  | fuel + 1, c :: cs =>
    if (p :: ps).isPrefixOf (c :: cs) then
      rep ++ replaceAux p ps rep fuel (cs.drop ps.length)
    else
      c :: replaceAux p ps rep fuel cs

/-- Python `s.replace(pat, rep)`.  Every call site in the embedded code
checks the pattern nonempty first (the endpoint rejects an empty `text`),
so the empty-pattern case is unreachable and modelled as the identity. -/
def pyReplace (s pat rep : String) : String :=
  match pat.data with
  | [] => s
  | p :: ps => ⟨replaceAux p ps rep.data s.data.length s.data⟩

/-- Helper for `pyContains`: does the nonempty-or-empty pattern occur as a
contiguous run in `l`? -/
def containsSub (pat : List Char) : List Char → Bool
  | [] => pat.isEmpty
  | c :: cs => pat.isPrefixOf (c :: cs) || containsSub pat cs

/-- Python `pat in s` (substring membership). -/
def pyContains (s pat : String) : Bool :=
  containsSub pat.data s.data

/-! ## Data model: segments and slides -/

/-- A transcript segment (`segment_split` output): an integer id and the
segment text. -/
structure Segment where
  id : Int
  text : String
deriving Repr, DecidableEq

/-- A slide record from the image-captioning output.  Only the fields the
mapping code reads are modelled. -/
structure Slide where
  slide_number : Int
  type : String
  title_keywords : List String
  secondary_keywords : List String
  detail : String
deriving Repr, DecidableEq

/-- A segment-to-slide mapping element `{segment_id, slide_id}`. -/
structure Mapping where
  segment_id : Int
  slide_id : Int
deriving Repr, DecidableEq

/-! ## `merge_segments` (src/segment_mapping.py lines 56-82) -/

/-- The rendered snippet of one segment:
`f"- Segment ID: {seg['id']}\n  Text: {seg['text']}\n\n"`. -/
def snippet (seg : Segment) : String :=
  "- Segment ID: " ++ intStr seg.id ++ "\n  Text: " ++ seg.text ++ "\n\n"

/-- One iteration of the `for seg in segments` loop of `merge_segments`.
State is `(batches, cur, cur_len)`. -/
def mergeStep (maxLen : Nat) (st : List String × List String × Nat)
    (seg : Segment) : List String × List String × Nat :=
  let (batches, cur, curLen) := st
  let s := snippet seg
  if cur ≠ [] ∧ curLen + s.length > maxLen then
    (batches ++ [String.join cur], [s], s.length)
  else
    (batches, cur ++ [s], curLen + s.length)

/-- `merge_segments(segments, max_len, min_len)`: run the loop, then flush
the trailing accumulator — merging it into the last flushed batch when at
least one batch exists and the accumulator is shorter than `min_len`. -/
def merge_segments (segments : List Segment) (maxLen minLen : Nat) :
    List String :=
  match segments.foldl (mergeStep maxLen) ([], [], 0) with
  | (batches, cur, curLen) =>
    if cur = [] then batches
    else if batches ≠ [] ∧ curLen < minLen then
      batches.dropLast ++ [batches.getLastD "" ++ String.join cur]
    else
      batches ++ [String.join cur]

/-! ## Parsing helpers for the `"slideN"` / `"segmentM"` keys -/

/-- Value of a list of decimal digit characters, most significant first. -/
def digitsVal (l : List Char) : Nat :=
  l.foldl (fun a c => a * 10 + (c.toNat - '0'.toNat)) 0

/-- Python `int(s)` restricted to the well-formed decimal strings
(optional minus sign followed by digits) that the slide/segment keys of
the pipeline always are; `int` raises on other inputs, which the embedded
code never produces. -/
def parseIntStr (s : String) : Int :=
  match s.data with
  | '-' :: rest => -(digitsVal rest : Int)
  | l => (digitsVal l : Int)

/-- The `"slide{n}"` key built by the endpoints. -/
def slideKeyStr (n : Int) : String := "slide" ++ intStr n

/-- The `"segment{n}"` key built by the endpoints. -/
def segKeyStr (n : Int) : String := "segment" ++ intStr n

/-! ## `slice_slides` (src/segment_mapping.py lines 88-92) -/

/-- `slice_slides(slides, centre, window)`: keep the slides whose
`slide_number` lies in `[max(1, centre - window), centre + window]`. -/
def slice_slides (slides : List Slide) (centre window : Int) : List Slide :=
  let start := max 1 (centre - window)
  let stop := centre + window
  slides.filter fun s => decide (start ≤ s.slide_number ∧ s.slide_number ≤ stop)

/-! ## `build_slide_prompt` and `call_mapping_api`
(src/segment_mapping.py lines 95-105 and 112-193) -/

/-- `json.dumps(keywords, ensure_ascii=False)` for the plain keyword lists
occurring in the data (no quotes/backslashes inside the keywords). -/
def jsonStrList (l : List String) : String :=
  "[" ++ String.intercalate ", " (l.map fun t => "\"" ++ t ++ "\"") ++ "]"

/-- `build_slide_prompt(slides)`: format the slide metadata block. -/
def build_slide_prompt (slides : List Slide) : String :=
  String.intercalate "\n" (slides.map fun s =>
    "- Slide " ++ intStr s.slide_number ++ "\n" ++
    "  - title_keywords: " ++ jsonStrList s.title_keywords ++ "\n" ++
    "  - secondary_keywords: " ++ jsonStrList s.secondary_keywords ++ "\n" ++
    "  - detail: " ++ s.detail)

/-- The decoded function-call arguments of the external classifier's
response: a `mappings` array of `{segment_id, slide_id}` objects. -/
structure OracleResponse where
  mappings : List Mapping
deriving Repr, DecidableEq

/-- The external classifier: from the segments block and the slide block
of the request to the decoded response.  The network transport and the
fixed prompt text around the two blocks are abstracted into this
function. -/
def Oracle : Type := String → String → OracleResponse

/-- `call_mapping_api(segments_block, slide_block, ...)`: build the
request, invoke the classifier, decode the arguments and return the
`mappings` field.  The source performs no validation of the response
against the batch: whatever mapping list the oracle returns is handed
back to the caller unchanged. -/
def call_mapping_api (oracle : Oracle) (segments_block slide_block : String) :
    List Mapping :=
  (oracle segments_block slide_block).mappings

/-! ## `save_results` (src/segment_mapping.py lines 200-240) -/

/-- The value stored per segment key: `{"text": segment_text}`. -/
structure SegOut where
  text : String
deriving Repr, DecidableEq

/-- The value stored per slide key: `{"Segments": {...}}`, the inner dict
modelled as an insertion-ordered association list. -/
structure SlideOut where
  segs : List (String × SegOut)
deriving Repr, DecidableEq

/-- The `ResultBySlide` document: `"slide0"`/`"slideN"` keys to slide
entries, insertion-ordered. -/
abbrev ResultBySlide := List (String × SlideOut)

/-- Python `d[k] = v` on an insertion-ordered dict: overwrite in place if
the key exists, else append. -/
def setAssoc (l : List (String × α)) (k : String) (v : α) : List (String × α) :=
  if l.any fun p => p.1 == k then
    l.map fun p => if p.1 == k then (k, v) else p
  else
    l ++ [(k, v)]

/-- One iteration of the `for mapping in mappings` grouping loop of
`save_results`. -/
def saveStep (segments : List Segment) (acc : ResultBySlide) (m : Mapping) :
    ResultBySlide :=
  let segment_text :=
    ((segments.find? fun seg => seg.id == m.segment_id).map Segment.text).getD ""
  let slide_key := if m.slide_id = -1 then "slide0" else slideKeyStr m.slide_id
  let acc :=
    if acc.any fun p => p.1 == slide_key then acc else acc ++ [(slide_key, ⟨[]⟩)]
  acc.map fun p =>
    if p.1 == slide_key then
      (p.1, ⟨setAssoc p.2.segs (segKeyStr m.segment_id) ⟨segment_text⟩⟩)
    else p

/-- Sort key of a slide key: `-1` for `"slide0"`, else
`int(key.replace("slide", ""))`. -/
def slideKeyVal (k : String) : Int :=
  if k = "slide0" then -1 else parseIntStr (pyReplace k "slide" "")

/-- Sort key of a segment key: `int(key.replace("segment", ""))`. -/
def segKeyVal (k : String) : Int :=
  parseIntStr (pyReplace k "segment" "")

/-- `save_results(mappings, segments)` without the file write: group the
mappings by slide key, then sort the slides by numeric id (`slide0`
first) and the segments of each slide by numeric id.  Python's `sorted`
is a stable sort by key, modelled by the stable `List.insertionSort`. -/
def save_results (mappings : List Mapping) (segments : List Segment) :
    ResultBySlide :=
  let slide_segments := mappings.foldl (saveStep segments) []
  let sorted_slides :=
    slide_segments.insertionSort fun a b => slideKeyVal a.1 ≤ slideKeyVal b.1
  sorted_slides.map fun p =>
    (p.1, ⟨p.2.segs.insertionSort fun a b => segKeyVal a.1 ≤ segKeyVal b.1⟩)

/-! ## `segment_mapping` (src/segment_mapping.py lines 246-311) -/

/-- `max(m["slide_id"] for m in (v :: vs))`. -/
def maxSlideId (v : Mapping) (vs : List Mapping) : Int :=
  vs.foldl (fun a m => max a m.slide_id) v.slide_id

/-- `slides[0]["slide_number"] if slides else 1`. -/
def initialCentre (slides : List Slide) : Int :=
  match slides with
  | [] => 1
  | s :: _ => s.slide_number

/-- One iteration of the `for batch in batches` loop of
`segment_mapping`: window the slides around the current centre, call the
adapter, accumulate the returned mappings, and advance the centre when
the batch produced at least one valid (`slide_id ≠ -1`) mapping. -/
def mappingStep (oracle : Oracle) (slides : List Slide) (window : Int)
    (st : Int × List Mapping) (batch : String) : Int × List Mapping :=
  let (centre, acc) := st
  let relevant_slides := slice_slides slides centre window
  let slide_prompt := build_slide_prompt relevant_slides
  let batch_mappings := call_mapping_api oracle batch slide_prompt
  let acc' := acc ++ batch_mappings
  if batch_mappings ≠ [] then
    match batch_mappings.filter fun m => decide (m.slide_id ≠ -1) with
    | [] => (centre, acc')
    | v :: vs => (maxSlideId v vs - 1, acc')
  else
    (centre, acc')

/-- The candidate slides of a run: the meta-typed slides are filtered out
once, before the loop (src/segment_mapping.py line 269). -/
def candidates (image_captioning_data : List Slide) : List Slide :=
  image_captioning_data.filter fun s => decide (s.type ≠ "meta")

/-- `segment_mapping(...)` without the file round-trip: filter out
meta-typed slides, batch the segments, run the windowed classification
loop, sort all mappings by segment id (stable) and assemble the result. -/
def segment_mapping (oracle : Oracle) (image_captioning_data : List Slide)
    (segment_split_data : List Segment) (slide_window : Int)
    (max_segment_length min_segment_length : Nat) : ResultBySlide :=
  let segments := segment_split_data
  let slides := candidates image_captioning_data
  let batches := merge_segments segments max_segment_length min_segment_length
  let st := batches.foldl (mappingStep oracle slides slide_window)
    (initialCentre slides, [])
  let all_mappings := st.2.insertionSort fun a b => a.segment_id ≤ b.segment_id
  save_results all_mappings segments

/-! ## The realtime `result.json` document (api/realtime.py)

The stored document maps `"slideN"` keys to slide entries holding summary
fields and a `"Segments"` dict (which some entries lack, hence `Option`).
Segment entries are read only through their `"text"` field; the other
four fields are written when an entry is created and never read. -/

/-- The `"Chart/Table Summary"` value: the endpoints create it as the
empty object `{}` and never read it; any other stored shape is
irrelevant to the claims and represented by `.stored`. -/
inductive ChartVal where
  | emptyObj : ChartVal
  | stored : String → ChartVal
deriving Repr, DecidableEq

/-- A segment entry of the realtime document. -/
structure RtSegment where
  text : String
  isImportant : String
  reason : String
  linkedConcept : String
  pageNumber : String
deriving Repr, DecidableEq

/-- The segment entry the endpoints create when a target segment is
absent (realtime.py lines 458-464 and 768-774). -/
def newRtSegment : RtSegment :=
  { text := "", isImportant := "false", reason := "", linkedConcept := "",
    pageNumber := "" }

/-- A slide entry of the realtime document. -/
structure RtSlide where
  conciseSummaryNotes : String
  bulletPointNotes : String
  keywordNotes : String
  chartTableSummary : ChartVal
  segments : Option (List (String × RtSegment))
deriving Repr, DecidableEq

/-- The slide entry the endpoints create when a target slide is absent
(realtime.py lines 444-450 and 754-760): empty summary fields and an
empty `Segments` dict. -/
def newRtSlide : RtSlide :=
  { conciseSummaryNotes := "", bulletPointNotes := "", keywordNotes := "",
    chartTableSummary := .emptyObj, segments := some [] }

/-- The realtime `result.json` document, insertion-ordered. -/
abbrev RtDoc := List (String × RtSlide)

/-- Python `d.get(k)` / `k in d` on an insertion-ordered dict. -/
def getAssoc (l : List (String × α)) (k : String) : Option α :=
  (l.find? fun p => p.1 == k).map Prod.snd

/-- Mutate the slide entry stored under `k` in place (no-op if absent). -/
def modifySlide (doc : RtDoc) (k : String) (f : RtSlide → RtSlide) : RtDoc :=
  doc.map fun p => if p.1 == k then (k, f p.2) else p

/-- Read `doc[k]["Segments"][sk]["text"]`. -/
def getSegText (doc : RtDoc) (k sk : String) : Option String := do
  let ts ← getAssoc doc k
  let segs ← ts.segments
  let e ← getAssoc segs sk
  pure e.text

/-- Assign `doc[k]["Segments"][sk]["text"] = t` in place (no-op if the
path is absent). -/
def setSegText (doc : RtDoc) (k sk : String) (t : String) : RtDoc :=
  modifySlide doc k fun ts =>
    match ts.segments with
    | none => ts
    | some segs =>
      { ts with
        segments :=
          some (segs.map fun q => if q.1 == sk then (sk, { q.2 with text := t }) else q) }

/-! ## `move_segment_endpoint` (api/realtime.py lines 657-832)

The request-validation, authentication and file-system lookups of the
endpoint are outside the document logic; the embedding starts from the
loaded document and the three request fields that reach the splicing
code.  Every failure (`jsonify(error), 4xx`) happens before the single
`json.dump` that persists the document, so the endpoint is modelled as a
function returning `Except`: an error leaves the stored document as it
was. -/

def move_segment (doc : RtDoc) (start_slide target_slide : Int)
    (text_to_move : String) : Except String RtDoc :=
  if text_to_move = "" then
    .error "jobId, startSlide, targetSlide, text are required"
  else
    let start_slide_key := slideKeyStr start_slide
    let start_segment_key := segKeyStr start_slide
    match getAssoc doc start_slide_key with
    | none => .error ("Start slide " ++ intStr start_slide ++ " not found")
    | some slide =>
      match slide.segments with
      | none => .error ("Segment not found in slide " ++ intStr start_slide)
      | some segs =>
        match getAssoc segs start_segment_key with
        | none => .error ("Segment not found in slide " ++ intStr start_slide)
        | some entry =>
          let current_text := entry.text
          if ¬ pyContains current_text text_to_move then
            .error "Text to move not found in the source segment"
          else
            -- remove the text and collapse whitespace runs
            let updated_start_text :=
              normalizeWs (pyStrip (pyReplace current_text text_to_move ""))
            let doc1 := setAssoc doc start_slide_key
              { slide with
                segments :=
                  some (setAssoc segs start_segment_key
                    { entry with text := updated_start_text }) }
            if target_slide = 0 then
              .ok doc1
            else
              let target_slide_key := slideKeyStr target_slide
              let target_segment_key := segKeyStr target_slide
              let baseSlide := (getAssoc doc1 target_slide_key).getD newRtSlide
              let baseSegs := baseSlide.segments.getD []
              let segsWithEntry :=
                if (getAssoc baseSegs target_segment_key).isSome then baseSegs
                else baseSegs ++ [(target_segment_key, newRtSegment)]
              let tentry := (getAssoc segsWithEntry target_segment_key).getD newRtSegment
              let target_current_text := tentry.text
              let new_text :=
                if target_slide < start_slide then
                  if target_current_text ≠ "" then
                    target_current_text ++ " " ++ text_to_move
                  else text_to_move
                else
                  if target_current_text ≠ "" then
                    text_to_move ++ " " ++ target_current_text
                  else text_to_move
              let finalSegs := setAssoc segsWithEntry target_segment_key
                { tentry with text := pyStrip new_text }
              .ok (setAssoc doc1 target_slide_key
                { baseSlide with segments := some finalSegs })

/-- The document persisted after a move-segment request: the endpoint
writes `result.json` only on the success path. -/
def move_segment_persist (doc : RtDoc) (start_slide target_slide : Int)
    (text_to_move : String) : RtDoc :=
  match move_segment doc start_slide target_slide text_to_move with
  | .ok doc' => doc'
  | .error _ => doc

/-! ## `post_process_endpoint`, per-slide splicing pass
(api/realtime.py lines 386-490)

The narrow re-classification (`post_process`) returns a mapped document
`mapped_data`; the endpoint then reshuffles the stored document from it.
The embedding takes `mapped_data` as input. -/

/-- `mapped_data`: slide keys to an optional `Segments` dict of segment
key to text (`segment_data.get("text", "")`). -/
abbrev MappedData := List (String × Option (List (String × String)))

/-- A record of the `segments_to_move` list: the fragment text and the
parsed target slide number. -/
structure MoveInfo where
  text : String
  target_slide : Int
deriving Repr, DecidableEq

/-- One fragment of the classification loop (lines 397-411): skip a
fragment whose stripped text is empty, keep it when its slide equals
`slide_num`, otherwise queue it for moving. -/
def classifySeg (slide_num mapped_slide_num : Int)
    (st : List String × List MoveInfo) (q : String × String) :
    List String × List MoveInfo :=
  let segment_text := q.2
  if pyStrip segment_text = "" then st
  else if mapped_slide_num = slide_num then
    (st.1 ++ [segment_text], st.2)
  else
    (st.1, st.2 ++ [⟨segment_text, mapped_slide_num⟩])

/-- One mapped slide of the classification loop (lines 391-396): skip
`slide0` and entries without `Segments`, else classify each fragment. -/
def classifySlide (slide_num : Int) (st : List String × List MoveInfo)
    (p : String × Option (List (String × String))) :
    List String × List MoveInfo :=
  if p.1 == "slide0" then st
  else
    match p.2 with
    | none => st
    | some segs =>
      let mapped_slide_num := parseIntStr (pyReplace p.1 "slide" "")
      segs.foldl (classifySeg slide_num mapped_slide_num) st

/-- The classification loop (lines 391-411): walk `mapped_data` and split
the nonempty fragments into those staying on `slide_num` and those
moving elsewhere. -/
def classifySegments (mapped : MappedData) (slide_num : Int) :
    List String × List MoveInfo :=
  mapped.foldl (classifySlide slide_num) ([], [])

/-- Step 1 (lines 416-425): replace the origin slide's aggregate text by
the space-joined kept fragments — but only when the origin slide, its
`Segments` dict and the aggregate key `segment{slide_num}` all exist. -/
def updateOrigin (doc : RtDoc) (slide_num : Int) (keeps : List String) : RtDoc :=
  let original_slide_key := slideKeyStr slide_num
  let main_segment_key := segKeyStr slide_num
  match getAssoc doc original_slide_key with
  | none => doc
  | some slide =>
    match slide.segments with
    | none => doc
    | some segs =>
      match getAssoc segs main_segment_key with
      | none => doc
      | some entry =>
        let new_original_text := pyStrip (String.intercalate " " keeps)
        setAssoc doc original_slide_key
          { slide with
            segments :=
              some (setAssoc segs main_segment_key
                { entry with text := new_original_text }) }

/-- Step 2 (lines 428-433): group the moving fragments by target slide,
preserving insertion order. -/
def groupByTarget (moves : List MoveInfo) : List (Int × List MoveInfo) :=
  moves.foldl
    (fun acc mi =>
      if acc.any fun p => p.1 == mi.target_slide then
        acc.map fun p => if p.1 == mi.target_slide then (p.1, p.2 ++ [mi]) else p
      else
        acc ++ [(mi.target_slide, [mi])])
    []

/-- Guard of lines 443-450: create the target slide (with empty summary
fields and an empty `Segments` dict) when absent. -/
def ensureSlide (doc : RtDoc) (k : String) : RtDoc :=
  if (getAssoc doc k).isSome then doc else doc ++ [(k, newRtSlide)]

/-- Guard of lines 453-454: create the `Segments` dict when absent. -/
def ensureSegments (doc : RtDoc) (k : String) : RtDoc :=
  modifySlide doc k fun ts =>
    if ts.segments.isNone then { ts with segments := some [] } else ts

/-- Guard of lines 457-464: create the aggregate segment entry when
absent. -/
def ensureMainSegment (doc : RtDoc) (k sk : String) : RtDoc :=
  modifySlide doc k fun ts =>
    match ts.segments with
    | none => ts
    | some segs =>
      if (getAssoc segs sk).isSome then ts
      else { ts with segments := some (segs ++ [(sk, newRtSegment)]) }

/-- Step 3 (lines 436-488), one target slide: create the slide, its
`Segments` dict and its aggregate segment entry when absent, concatenate
the moved fragments, and append them after (`target < slide_num`) or
before (`target > slide_num`) the existing text. -/
def spliceTarget (slide_num : Int) (doc : RtDoc) (tgt : Int × List MoveInfo) :
    RtDoc :=
  let target_slide_num := tgt.1
  let target_segments := tgt.2
  let target_slide_key := slideKeyStr target_slide_num
  let target_main_segment_key := segKeyStr target_slide_num
  let doc3 := ensureMainSegment
    (ensureSegments (ensureSlide doc target_slide_key) target_slide_key)
    target_slide_key target_main_segment_key
  let existing_text := (getSegText doc3 target_slide_key target_main_segment_key).getD ""
  let combined_segments_text :=
    String.intercalate " " (target_segments.map MoveInfo.text)
  if target_slide_num < slide_num then
    let new_text :=
      if existing_text ≠ "" then existing_text ++ " " ++ combined_segments_text
      else combined_segments_text
    setSegText doc3 target_slide_key target_main_segment_key (pyStrip new_text)
  else if target_slide_num > slide_num then
    let new_text :=
      if existing_text ≠ "" then combined_segments_text ++ " " ++ existing_text
      else combined_segments_text
    setSegText doc3 target_slide_key target_main_segment_key (pyStrip new_text)
  else
    doc3

/-- The whole splicing pass for one processed slide. -/
def post_process_slide (doc : RtDoc) (slide_num : Int) (mapped : MappedData) :
    RtDoc :=
  let km := classifySegments mapped slide_num
  let doc1 := updateOrigin doc slide_num km.1
  (groupByTarget km.2).foldl (spliceTarget slide_num) doc1

/-! ## Lemmas about `String.join` -/

theorem foldl_append_data (l : List String) (a : String) :
    (l.foldl (· ++ ·) a).data = a.data ++ (l.map String.data).flatten := by
  induction l generalizing a with
  | nil => simp
  | cons s t ih => simp [List.foldl_cons, ih, String.data_append]

theorem data_join (l : List String) :
    (String.join l).data = (l.map String.data).flatten := by
  simpa [String.join] using foldl_append_data l ""

theorem join_append (l1 l2 : List String) :
    String.join (l1 ++ l2) = String.join l1 ++ String.join l2 :=
  String.ext (by simp [data_join, String.data_append])

theorem join_cons (s : String) (l : List String) :
    String.join (s :: l) = s ++ String.join l :=
  String.ext (by simp [data_join, String.data_append])

theorem join_nil : String.join [] = "" := rfl

theorem join_singleton (s : String) : String.join [s] = s :=
  String.ext (by simp [data_join])

theorem length_join (l : List String) :
    (String.join l).length = (l.map String.length).sum := by
  induction l with
  | nil => rfl
  | cons s t ih => simp [join_cons, String.length_append, ih]

/-! ## Claim C8: batching preserves the segment stream -/

/-- Reduce `merge_segments` once the loop state is known. -/
theorem merge_segments_eq (segs : List Segment) (maxLen minLen : Nat)
    (batches cur : List String) (curLen : Nat)
    (hst : segs.foldl (mergeStep maxLen) ([], [], 0) = (batches, cur, curLen)) :
    merge_segments segs maxLen minLen =
      if cur = [] then batches
      else if batches ≠ [] ∧ curLen < minLen then
        batches.dropLast ++ [batches.getLastD "" ++ String.join cur]
      else batches ++ [String.join cur] := by
  unfold merge_segments
  rw [hst]

theorem mergeLoop_join (maxLen : Nat) (segs : List Segment)
    (batches cur : List String) (curLen : Nat) :
    String.join (segs.foldl (mergeStep maxLen) (batches, cur, curLen)).1 ++
      String.join (segs.foldl (mergeStep maxLen) (batches, cur, curLen)).2.1 =
      String.join batches ++ String.join cur ++ String.join (segs.map snippet) := by
  induction segs generalizing batches cur curLen with
  | nil => simp [join_nil]
  | cons seg rest ih =>
    simp only [List.foldl_cons, List.map_cons]
    rw [mergeStep]
    split
    · rw [ih]
      simp [join_append, join_singleton, join_cons, join_nil, String.append_assoc]
    · rw [ih]
      simp [join_append, join_singleton, join_cons, join_nil, String.append_assoc]

/-- **C8**: for every segment sequence and all size parameters, the
concatenation of the batches returned by `merge_segments`, in order,
equals the concatenation of the rendered snippets of the input segments
in input order (so the segment id sequence is preserved across batches),
and an empty segment list yields an empty batch sequence. -/
theorem merge_segments_coverage (segs : List Segment) (maxLen minLen : Nat) :
    String.join (merge_segments segs maxLen minLen) =
      String.join (segs.map snippet) ∧
    merge_segments ([] : List Segment) maxLen minLen = [] := by
  refine ⟨?_, rfl⟩
  obtain ⟨⟨batches, cur, curLen⟩, hst⟩ :
      ∃ st, segs.foldl (mergeStep maxLen) ([], [], 0) = st := ⟨_, rfl⟩
  have h := mergeLoop_join maxLen segs [] [] 0
  rw [hst] at h
  simp only [join_nil, String.empty_append] at h
  rw [merge_segments_eq segs maxLen minLen batches cur curLen hst]
  by_cases h0 : cur = []
  · rw [if_pos h0]
    rw [h0, join_nil, String.append_empty] at h
    exact h
  · rw [if_neg h0]
    by_cases h1 : batches ≠ [] ∧ curLen < minLen
    · rw [if_pos h1]
      rcases batches.eq_nil_or_concat with rfl | ⟨front, last, rfl⟩
      · exact absurd rfl h1.1
      · simp only [List.concat_eq_append] at h ⊢
        rw [List.dropLast_concat, List.getLastD_concat]
        rw [join_append, join_singleton] at h ⊢
        rw [← String.append_assoc]
        exact h

    · rw [if_neg h1, join_append, join_singleton]
      exact h

/-! ## Claim C1: batch length bound -/

/-- A flushed batch is within the budget unless it is the rendered
snippet of a single segment satisfying `P`. -/
def BatchOk (maxLen : Nat) (P : Segment → Prop) (b : String) : Prop :=
  b.length ≤ maxLen ∨ ∃ seg, P seg ∧ b = snippet seg

/-- Invariant of the accumulator during the merge loop. -/
def CurOk (maxLen : Nat) (P : Segment → Prop) (cur : List String) : Prop :=
  cur = [] ∨ (String.join cur).length ≤ maxLen ∨
    ∃ seg, P seg ∧ cur = [snippet seg]

theorem mergeLoop_inv (maxLen : Nat) (P : Segment → Prop) (segs : List Segment)
    (hsegs : ∀ seg ∈ segs, P seg) (batches cur : List String) (curLen : Nat)
    (hb : ∀ b ∈ batches, BatchOk maxLen P b) (hc : CurOk maxLen P cur)
    (hl : curLen = (String.join cur).length) :
    (∀ b ∈ (segs.foldl (mergeStep maxLen) (batches, cur, curLen)).1,
        BatchOk maxLen P b) ∧
    CurOk maxLen P (segs.foldl (mergeStep maxLen) (batches, cur, curLen)).2.1 ∧
    (segs.foldl (mergeStep maxLen) (batches, cur, curLen)).2.2 =
      (String.join (segs.foldl (mergeStep maxLen) (batches, cur, curLen)).2.1).length := by
  induction segs generalizing batches cur curLen with
  | nil => exact ⟨hb, hc, hl⟩
  | cons seg rest ih =>
    simp only [List.foldl_cons]
    rw [mergeStep]
    split
    · next hcond =>
      refine ih (fun s hs => hsegs s (List.mem_cons_of_mem _ hs)) _ _ _ ?_ ?_ ?_
      · intro b hbmem
        rcases List.mem_append.1 hbmem with h | h
        · exact hb b h
        · rcases List.mem_singleton.1 h with rfl
          rcases hc with rfl | h | ⟨s, hPs, rfl⟩
          · exact absurd rfl hcond.1
          · exact Or.inl h
          · exact Or.inr ⟨s, hPs, join_singleton _⟩
      · exact Or.inr (Or.inr ⟨seg, hsegs seg (List.mem_cons_self _ _), rfl⟩)
      · rw [join_singleton]
    · next hcond =>
      refine ih (fun s hs => hsegs s (List.mem_cons_of_mem _ hs)) _ _ _ hb ?_ ?_
      · rcases eq_or_ne cur [] with rfl | hne
        · exact Or.inr (Or.inr ⟨seg, hsegs seg (List.mem_cons_self _ _), by simp⟩)
        · have hle : curLen + (snippet seg).length ≤ maxLen :=
            Nat.not_lt.mp fun hgt => hcond ⟨hne, hgt⟩
          refine Or.inr (Or.inl ?_)
          rw [join_append, join_singleton, String.length_append, ← hl]
          exact hle
      · rw [join_append, join_singleton, String.length_append, hl]

/-- **C1 (amended)**: every batch except possibly the last is either
within `max_len` or the rendered snippet of a single input segment
(which then exceeds `max_len`); and when no single snippet exceeds
`max_len`, every batch — including a last batch enlarged by the
trailing-remainder merge — has length at most `max_len + min_len`. -/
theorem merge_segments_bound (segs : List Segment) (maxLen minLen : Nat)
    (hmax : 0 < maxLen) :
    (∀ b ∈ (merge_segments segs maxLen minLen).dropLast,
        b.length ≤ maxLen ∨ ∃ seg ∈ segs, b = snippet seg) ∧
    ((∀ seg ∈ segs, (snippet seg).length ≤ maxLen) →
      ∀ b ∈ merge_segments segs maxLen minLen,
        b.length ≤ maxLen + minLen) := by
  obtain ⟨⟨batches, cur, curLen⟩, hst⟩ :
      ∃ st, segs.foldl (mergeStep maxLen) ([], [], 0) = st := ⟨_, rfl⟩
  have hinv := mergeLoop_inv maxLen (fun s => s ∈ segs) segs
    (fun s hs => hs) [] [] 0 (by intro b hb; cases hb) (Or.inl rfl) rfl
  rw [hst] at hinv
  obtain ⟨hb, hc, hl⟩ := hinv
  simp only at hb hc hl
  rw [merge_segments_eq segs maxLen minLen batches cur curLen hst]
  constructor
  · -- every batch but the last is within budget or a single snippet
    intro b hbmem
    by_cases h0 : cur = []
    · rw [if_pos h0] at hbmem
      exact hb b ((List.dropLast_sublist _).subset hbmem)
    · rw [if_neg h0] at hbmem
      by_cases h1 : batches ≠ [] ∧ curLen < minLen
      · rw [if_pos h1, List.dropLast_concat] at hbmem
        exact hb b ((List.dropLast_sublist _).subset hbmem)
      · rw [if_neg h1, List.dropLast_concat] at hbmem
        exact hb b hbmem
  · -- with no oversized snippet every batch fits in maxLen + minLen
    intro hsmall b hbmem
    have hbatch : ∀ b ∈ batches, b.length ≤ maxLen := by
      intro b hbm
      rcases hb b hbm with h | ⟨s, hs, rfl⟩
      · exact h
      · exact hsmall s hs
    have hcur : cur ≠ [] → (String.join cur).length ≤ maxLen := by
      intro hne
      rcases hc with rfl | h | ⟨s, hs, rfl⟩
      · exact absurd rfl hne
      · exact h
      · rw [join_singleton]; exact hsmall s hs
    by_cases h0 : cur = []
    · rw [if_pos h0] at hbmem
      exact Nat.le_trans (hbatch b hbmem) (Nat.le_add_right _ _)
    · rw [if_neg h0] at hbmem
      by_cases h1 : batches ≠ [] ∧ curLen < minLen
      · rw [if_pos h1] at hbmem
        rcases List.mem_append.1 hbmem with h | h
        · exact Nat.le_trans (hbatch b ((List.dropLast_sublist _).subset h))
            (Nat.le_add_right _ _)
        · rcases List.mem_singleton.1 h with rfl
          rcases batches.eq_nil_or_concat with rfl | ⟨front, last, rfl⟩
          · exact absurd rfl h1.1
          · simp only [List.concat_eq_append] at hbatch ⊢
            rw [List.getLastD_concat, String.length_append]
            have hlast : last.length ≤ maxLen :=
              hbatch last (List.mem_append.2 (Or.inr (List.mem_singleton_self _)))
            have hrem : curLen < minLen := h1.2
            rw [← hl]
            omega
      · rw [if_neg h1] at hbmem
        rcases List.mem_append.1 hbmem with h | h
        · exact Nat.le_trans (hbatch b h) (Nat.le_add_right _ _)
        · rcases List.mem_singleton.1 h with rfl
          exact Nat.le_trans (hcur h0) (Nat.le_add_right _ _)

/-- Witness for `merge_segments_bound` at a concrete input. -/
theorem merge_segments_bound_witness :
    0 < 30 ∧
    ((∀ b ∈ (merge_segments [⟨1, "A"⟩, ⟨2, "B"⟩] 30 100).dropLast,
        b.length ≤ 30 ∨ ∃ seg ∈ [Segment.mk 1 "A", Segment.mk 2 "B"], b = snippet seg) ∧
      ((∀ seg ∈ [Segment.mk 1 "A", Segment.mk 2 "B"], (snippet seg).length ≤ 30) →
        ∀ b ∈ merge_segments [⟨1, "A"⟩, ⟨2, "B"⟩] 30 100, b.length ≤ 30 + 100)) :=
  ⟨by decide, merge_segments_bound [⟨1, "A"⟩, ⟨2, "B"⟩] 30 100 (by decide)⟩

/-- **C1 counterexample**: with `max_len = 30 > 0`, `min_len = 100 ≥ 0` and
four segments whose snippets are each within `max_len` (26 ≤ 30), the
trailing-remainder merge produces a final batch of two snippets whose
length 52 exceeds `max_len = 30` — refuting the claim that every batch is
within `max_len` except one containing a single oversized segment. -/
theorem merge_segments_bound_cex :
    merge_segments [⟨1, ""⟩, ⟨2, ""⟩, ⟨3, ""⟩, ⟨4, ""⟩] 30 100 =
      ["- Segment ID: 1\n  Text: \n\n",
       "- Segment ID: 2\n  Text: \n\n",
       "- Segment ID: 3\n  Text: \n\n- Segment ID: 4\n  Text: \n\n"] ∧
    (∀ seg ∈ ([⟨1, ""⟩, ⟨2, ""⟩, ⟨3, ""⟩, ⟨4, ""⟩] : List Segment),
        (snippet seg).length ≤ 30) ∧
    ("- Segment ID: 3\n  Text: \n\n- Segment ID: 4\n  Text: \n\n" : String).length = 52 ∧
    ¬ (52 ≤ 30) := by
  refine ⟨by decide, by decide, by decide, by decide⟩

/-- Witness for `merge_segments_coverage`: no hypotheses, but record a
concrete evaluation anyway. -/
theorem merge_segments_coverage_example :
    String.join (merge_segments [⟨1, "A"⟩, ⟨2, "B"⟩] 2000 500) =
      snippet ⟨1, "A"⟩ ++ snippet ⟨2, "B"⟩ := by decide

/-! ## Claim C7: windowing correctness -/

/-- **C7**: on a slide list with 1-based numbering and the meta slides
already filtered out, `slice_slides` returns exactly the (order
preserving) subsequence of slides whose number lies in
`[max(1, centre - radius), centre + radius]`; every returned slide has
number at least 1, lies in `[centre - radius, centre + radius]`, and is
not meta-typed. -/
theorem slice_slides_spec (slides : List Slide) (centre radius : Int)
    (hnum : ∀ s ∈ slides, 1 ≤ s.slide_number)
    (hmeta : ∀ s ∈ slides, s.type ≠ "meta") :
    slice_slides slides centre radius =
      slides.filter (fun s => decide (max 1 (centre - radius) ≤ s.slide_number ∧
        s.slide_number ≤ centre + radius)) ∧
    (slice_slides slides centre radius).Sublist slides ∧
    ∀ s ∈ slice_slides slides centre radius,
      1 ≤ s.slide_number ∧ centre - radius ≤ s.slide_number ∧
        s.slide_number ≤ centre + radius ∧ s.type ≠ "meta" := by
  refine ⟨rfl, List.filter_sublist _, ?_⟩
  intro s hs
  rw [slice_slides, List.mem_filter] at hs
  obtain ⟨hmem, hcond⟩ := hs
  rw [decide_eq_true_eq] at hcond
  obtain ⟨hlo, hhi⟩ := hcond
  have h1 : (1 : Int) ≤ s.slide_number :=
    le_trans (le_max_left _ _) hlo
  have h2 : centre - radius ≤ s.slide_number :=
    le_trans (le_max_right _ _) hlo
  exact ⟨h1, h2, hhi, hmeta s hmem⟩

/-- Witness for `slice_slides_spec` at a concrete input. -/
theorem slice_slides_spec_witness :
    (∀ s ∈ [Slide.mk 1 "content" ["x"] [] "", Slide.mk 5 "content" ["y"] [] ""],
        1 ≤ s.slide_number) ∧
    (∀ s ∈ [Slide.mk 1 "content" ["x"] [] "", Slide.mk 5 "content" ["y"] [] ""],
        s.type ≠ "meta") ∧
    ∀ s ∈ slice_slides [Slide.mk 1 "content" ["x"] [] "",
        Slide.mk 5 "content" ["y"] [] ""] 3 2,
      1 ≤ s.slide_number ∧ 3 - 2 ≤ s.slide_number ∧
        s.slide_number ≤ 3 + 2 ∧ s.type ≠ "meta" :=
  ⟨by decide, by decide,
    (slice_slides_spec [⟨1, "content", ["x"], [], ""⟩, ⟨5, "content", ["y"], [], ""⟩]
      3 2 (by decide) (by decide)).2.2⟩

/-! ## Decimal keys: round trip and injectivity -/

theorem digitsVal_append (l : List Char) (c : Char) :
    digitsVal (l ++ [c]) = digitsVal l * 10 + (c.toNat - '0'.toNat) := by
  simp [digitsVal, List.foldl_append]

theorem digitChar_val (n : Nat) (h : n < 10) :
    (Nat.digitChar n).toNat - '0'.toNat = n := by
  interval_cases n <;> decide

theorem digitChar_ne_minus (n : Nat) (h : n < 10) : Nat.digitChar n ≠ '-' := by
  interval_cases n <;> decide

theorem decDigitsAux_val (fuel n : Nat) (h : n < fuel) :
    digitsVal (decDigitsAux fuel n) = n := by
  induction fuel generalizing n with
  | zero => omega
  | succ fuel ih =>
    rw [decDigitsAux]
    split
    · next h10 =>
      simpa [digitsVal] using digitChar_val n h10
    · next h10 =>
      have hdiv : n / 10 < n := Nat.div_lt_self (by omega) (by omega)
      rw [digitsVal_append, ih (n / 10) (by omega),
        digitChar_val (n % 10) (Nat.mod_lt _ (by omega))]
      omega

theorem decDigits_val (n : Nat) : digitsVal (decDigits n) = n :=
  decDigitsAux_val _ _ (Nat.lt_succ_self n)

theorem decDigitsAux_ne_minus (fuel n : Nat) :
    ∀ c ∈ decDigitsAux fuel n, c ≠ '-' := by
  induction fuel generalizing n with
  | zero => intro c hc; cases hc
  | succ fuel ih =>
    intro c hc
    rw [decDigitsAux] at hc
    split at hc
    · next h10 =>
      rcases List.mem_singleton.1 hc with rfl
      exact digitChar_ne_minus n h10
    · next h10 =>
      rcases List.mem_append.1 hc with h | h
      · exact ih (n / 10) c h
      · rcases List.mem_singleton.1 h with rfl
        exact digitChar_ne_minus (n % 10) (Nat.mod_lt _ (by omega))

theorem decDigitsAux_ne_nil (fuel n : Nat) (h : 0 < fuel) :
    decDigitsAux fuel n ≠ [] := by
  cases fuel with
  | zero => omega
  | succ fuel =>
    rw [decDigitsAux]
    split <;> simp

theorem parseIntStr_intStr (i : Int) : parseIntStr (intStr i) = i := by
  rw [intStr]
  split
  · next hneg =>
    have hdata : ("-" ++ decStr (-i).toNat).data = '-' :: decDigits (-i).toNat := by
      simp [decStr, String.data_append]
    unfold parseIntStr
    rw [hdata]
    simp only [decDigits_val]
    have : ((-i).toNat : Int) = -i := Int.toNat_of_nonneg (by omega)
    omega
  · next hpos =>
    obtain ⟨c, cs, hd⟩ : ∃ c cs, decDigits i.toNat = c :: cs := by
      rcases h : decDigits i.toNat with _ | ⟨c, cs⟩
      · exact absurd h (decDigitsAux_ne_nil _ _ (Nat.succ_pos _))
      · exact ⟨c, cs, rfl⟩
    have hc : c ≠ '-' := decDigitsAux_ne_minus _ _ c (hd ▸ List.mem_cons_self _ _)
    unfold parseIntStr
    have hdata : (decStr i.toNat).data = c :: cs := by
      simpa [decStr] using hd
    rw [hdata]
    split
    · next heq =>
      rw [List.cons.injEq] at heq
      exact absurd heq.1 hc
    · rw [← hd, decDigits_val]
      exact Int.toNat_of_nonneg (by omega)

theorem intStr_inj {a b : Int} (h : intStr a = intStr b) : a = b := by
  have ha := parseIntStr_intStr a
  rw [h, parseIntStr_intStr b] at ha
  exact ha.symm

theorem slideKeyStr_inj {a b : Int} (h : slideKeyStr a = slideKeyStr b) :
    a = b := by
  apply intStr_inj
  apply String.ext
  have := congrArg String.data h
  simpa [slideKeyStr, String.data_append] using this

theorem segKeyStr_inj {a b : Int} (h : segKeyStr a = segKeyStr b) : a = b := by
  apply intStr_inj
  apply String.ext
  have := congrArg String.data h
  simpa [segKeyStr, String.data_append] using this

/-! ## Association list lemmas -/

theorem getAssoc_mapIf_self (l : List (String × α)) (k : String) (g : α → α) :
    getAssoc (l.map fun p => if p.1 == k then (k, g p.2) else p) k =
      (getAssoc l k).map g := by
  induction l with
  | nil => rfl
  | cons q t ih =>
    rw [List.map_cons]
    simp only [getAssoc] at ih ⊢
    by_cases hq : (q.1 == k) = true
    · have hif : (if (q.1 == k) = true then (k, g q.2) else q) = (k, g q.2) :=
        if_pos hq
      rw [hif, @List.find?_cons_of_pos _ (fun p => p.1 == k) (k, g q.2) _ (by simp),
        @List.find?_cons_of_pos _ (fun p => p.1 == k) q _ hq]
      simp
    · have hif : (if (q.1 == k) = true then (k, g q.2) else q) = q := if_neg hq
      rw [hif, @List.find?_cons_of_neg _ (fun p => p.1 == k) q _ hq,
        @List.find?_cons_of_neg _ (fun p => p.1 == k) q _ hq]
      exact ih

theorem getAssoc_mapIf_ne (l : List (String × α)) (k k' : String) (g : α → α)
    (h : k ≠ k') :
    getAssoc (l.map fun p => if p.1 == k then (k, g p.2) else p) k' =
      getAssoc l k' := by
  induction l with
  | nil => rfl
  | cons q t ih =>
    rw [List.map_cons]
    simp only [getAssoc] at ih ⊢
    by_cases hq : (q.1 == k) = true
    · have hqeq : q.1 = k := by simpa using hq
      have hq' : ¬ (q.1 == k') = true := by simp [hqeq, h]
      have hif : (if (q.1 == k) = true then (k, g q.2) else q) = (k, g q.2) :=
        if_pos hq
      rw [hif,
        @List.find?_cons_of_neg _ (fun p => p.1 == k') (k, g q.2) _ (by simp [h]),
        @List.find?_cons_of_neg _ (fun p => p.1 == k') q _ hq']
      exact ih
    · have hif : (if (q.1 == k) = true then (k, g q.2) else q) = q := if_neg hq
      by_cases hq' : (q.1 == k') = true
      · rw [hif, @List.find?_cons_of_pos _ (fun p => p.1 == k') q _ hq',
          @List.find?_cons_of_pos _ (fun p => p.1 == k') q _ hq']
      · rw [hif, @List.find?_cons_of_neg _ (fun p => p.1 == k') q _ hq',
          @List.find?_cons_of_neg _ (fun p => p.1 == k') q _ hq']
        exact ih

theorem getAssoc_append_of_none (l1 l2 : List (String × α)) (k : String)
    (h : getAssoc l1 k = none) : getAssoc (l1 ++ l2) k = getAssoc l2 k := by
  rw [getAssoc] at h
  rcases hf : List.find? (fun p => p.1 == k) l1 with _ | p
  · rw [getAssoc, List.find?_append, hf]
    simp [getAssoc]
  · rw [hf] at h
    simp at h

theorem getAssoc_append_of_some (l1 l2 : List (String × α)) (k : String)
    (h : (getAssoc l1 k).isSome) : getAssoc (l1 ++ l2) k = getAssoc l1 k := by
  rcases hf : List.find? (fun p => p.1 == k) l1 with _ | p
  · rw [getAssoc, hf] at h
    simp at h
  · rw [getAssoc, List.find?_append, hf, getAssoc, hf]
    rfl

theorem any_key_iff_isSome (l : List (String × α)) (k : String) :
    (l.any fun p => p.1 == k) = true ↔ (getAssoc l k).isSome := by
  rw [getAssoc, List.any_eq_true, ← List.find?_isSome]
  cases List.find? (fun p => p.1 == k) l <;> simp

theorem getAssoc_setAssoc_self (l : List (String × α)) (k : String) (v : α) :
    getAssoc (setAssoc l k v) k = some v := by
  rw [setAssoc]
  split
  · next hany =>
    have hsome := (any_key_iff_isSome l k).1 hany
    have := getAssoc_mapIf_self l k (fun _ => v)
    rw [this]
    obtain ⟨w, hw⟩ := Option.isSome_iff_exists.1 hsome
    rw [hw]
    rfl
  · next hany =>
    have hnone : getAssoc l k = none := by
      rcases h : getAssoc l k with _ | w
      · rfl
      · exact absurd ((any_key_iff_isSome l k).2 (by simp [h])) hany
    rw [getAssoc_append_of_none _ _ _ hnone]
    simp [getAssoc, List.find?_cons_of_pos]

theorem getAssoc_setAssoc_ne (l : List (String × α)) (k k' : String) (v : α)
    (h : k ≠ k') : getAssoc (setAssoc l k v) k' = getAssoc l k' := by
  rw [setAssoc]
  split
  · exact getAssoc_mapIf_ne l k k' (fun _ => v) h
  · rcases hg : getAssoc l k' with _ | w
    · rw [getAssoc_append_of_none _ _ _ hg]
      simp [getAssoc, List.find?_cons_of_neg, h]
    · rw [getAssoc_append_of_some _ _ _ (by simp [hg]), hg]

theorem getAssoc_modifySlide_self (doc : RtDoc) (k : String) (f : RtSlide → RtSlide) :
    getAssoc (modifySlide doc k f) k = (getAssoc doc k).map f :=
  getAssoc_mapIf_self doc k f

theorem getAssoc_modifySlide_ne (doc : RtDoc) (k k' : String)
    (f : RtSlide → RtSlide) (h : k ≠ k') :
    getAssoc (modifySlide doc k f) k' = getAssoc doc k' :=
  getAssoc_mapIf_ne doc k k' f h

theorem getAssoc_append_single_ne (doc : List (String × α)) (k : String)
    (v : α) (k' : String) (h : k ≠ k') :
    getAssoc (doc ++ [(k, v)]) k' = getAssoc doc k' := by
  rcases hg : getAssoc doc k' with _ | w
  · rw [getAssoc_append_of_none _ _ _ hg]
    simp [getAssoc, List.find?_cons, h]
  · rw [getAssoc_append_of_some _ _ _ (by simp [hg]), hg]

theorem drop_append_add (l1 l2 : List Char) (i : Nat) :
    (l1 ++ l2).drop (l1.length + i) = l2.drop i := by
  rw [← List.drop_drop i l1.length, List.drop_left]

/-! ## Occurrence analysis of `pyReplace` (claim C2) -/

theorem replaceAux_no_occ (p : Char) (ps rep : List Char) (fuel : Nat)
    (l : List Char) (hfuel : l.length ≤ fuel)
    (hno : ∀ i, ¬ (p :: ps) <+: l.drop i) :
    replaceAux p ps rep fuel l = l := by
  induction fuel generalizing l with
  | zero => rfl
  | succ fuel ih =>
    cases l with
    | nil => rfl
    | cons c cs =>
      rw [replaceAux]
      have h0 : ¬ ((p :: ps).isPrefixOf (c :: cs)) = true := by
        rw [List.isPrefixOf_iff_prefix]
        exact fun hpre => hno 0 (by simpa using hpre)
      rw [if_neg h0]
      congr 1
      refine ih cs (by simpa using Nat.le_of_succ_le_succ hfuel) ?_
      intro i hi
      exact hno (i + 1) (by simpa using hi)

theorem replaceAux_unique (p : Char) (ps : List Char) (a b : List Char)
    (fuel : Nat) (hfuel : (a ++ (p :: ps) ++ b).length ≤ fuel)
    (huniq : ∀ i, (p :: ps) <+: (a ++ (p :: ps) ++ b).drop i → i = a.length) :
    replaceAux p ps [] fuel (a ++ (p :: ps) ++ b) = a ++ b := by
  induction a generalizing fuel with
  | nil =>
    cases fuel with
    | zero => simp at hfuel
    | succ fuel =>
      simp only [List.nil_append] at huniq ⊢
      show replaceAux p ps [] (fuel + 1) (p :: (ps ++ b)) = b
      rw [replaceAux]
      have hpre : ((p :: ps).isPrefixOf (p :: (ps ++ b))) = true := by
        rw [List.isPrefixOf_iff_prefix]
        exact ⟨b, by simp⟩
      rw [if_pos hpre]
      have hdrop : (ps ++ b).drop ps.length = b := List.drop_left ps b
      rw [hdrop, List.nil_append]
      refine replaceAux_no_occ p ps [] fuel b ?_ ?_
      · have := hfuel
        simp only [List.length_append, List.length_cons] at this
        omega
      · intro i hi
        have hocc : (p :: ps) <+: ((p :: ps) ++ b).drop ((p :: ps).length + i) := by
          rw [drop_append_add]
          exact hi
        have := huniq ((p :: ps).length + i) hocc
        simp at this
  | cons c a' ih =>
    cases fuel with
    | zero => simp at hfuel
    | succ fuel =>
      have hshape : (c :: a') ++ (p :: ps) ++ b = c :: (a' ++ (p :: ps) ++ b) := by
        simp
      rw [hshape, replaceAux]
      have h0 : ¬ ((p :: ps).isPrefixOf (c :: (a' ++ (p :: ps) ++ b))) = true := by
        rw [List.isPrefixOf_iff_prefix]
        intro hpre
        have h00 := huniq 0 (by rw [hshape]; simpa using hpre)
        simp at h00
      rw [if_neg h0]
      have hgoal : replaceAux p ps [] fuel (a' ++ (p :: ps) ++ b) = a' ++ b := by
        refine ih fuel ?_ ?_
        · rw [hshape] at hfuel
          simpa using Nat.le_of_succ_le_succ hfuel
        · intro i hi
          have := huniq (i + 1) (by rw [hshape]; simpa using hi)
          simpa using this
      rw [hgoal]
      rfl

theorem string_data_ne_nil {t : String} (h : t ≠ "") : t.data ≠ [] := by
  intro hd
  exact h (String.ext hd)

/-! ## Claim C2: move-segment deletion -/

/-- **C2 (amended)**: a successful move-segment deletion
(`target_slide = 0`) replaces the source segment's text by the
whitespace-normalisation of the text with **every** leftmost
non-overlapping occurrence of the literal `text` removed (Python
`str.replace` removes all occurrences); when the text occurs at exactly
one position, exactly that occurrence is removed, so the stored text is
the whitespace-normalised remainder. -/
theorem move_segment_delete (doc : RtDoc) (start_slide : Int) (t : String)
    (slide : RtSlide) (segs : List (String × RtSegment)) (entry : RtSegment)
    (h1 : getAssoc doc (slideKeyStr start_slide) = some slide)
    (h2 : slide.segments = some segs)
    (h3 : getAssoc segs (segKeyStr start_slide) = some entry)
    (ht : t ≠ "")
    (hcont : pyContains entry.text t = true) :
    move_segment doc start_slide 0 t =
      .ok (setAssoc doc (slideKeyStr start_slide)
        { slide with segments := some (setAssoc segs (segKeyStr start_slide)
            { entry with
              text := normalizeWs (pyStrip (pyReplace entry.text t "")) }) }) ∧
    (∀ a b : List Char, entry.text.data = a ++ t.data ++ b →
      (∀ i ≤ entry.text.data.length,
        t.data <+: entry.text.data.drop i → i = a.length) →
      pyReplace entry.text t "" = ⟨a ++ b⟩) := by
  constructor
  · simp only [move_segment, if_neg ht, h1, h2, h3, hcont]
    simp
  · intro a b hdecomp huniq
    obtain ⟨p, ps, hp⟩ : ∃ p ps, t.data = p :: ps := by
      rcases h : t.data with _ | ⟨p, ps⟩
      · exact absurd h (string_data_ne_nil ht)
      · exact ⟨p, ps, rfl⟩
    have huniq' : ∀ i, (p :: ps) <+: (a ++ (p :: ps) ++ b).drop i →
        i = a.length := by
      intro i hi
      by_cases hle : i ≤ entry.text.data.length
      · exact huniq i hle (by rw [hdecomp, hp]; exact hi)
      · have hlen : entry.text.data.length ≤ i := Nat.le_of_not_le hle
        have hnil : (a ++ (p :: ps) ++ b).drop i = [] := by
          apply List.drop_eq_nil_of_le
          rw [← hp, ← hdecomp]
          exact hlen
        rw [hnil] at hi
        exact absurd hi (by simp)
    have hdata : entry.text.data = a ++ (p :: ps) ++ b := by
      rw [hdecomp, hp]
    simp only [pyReplace, hp]
    rw [hdata]
    exact congrArg String.mk (replaceAux_unique p ps a b _ (Nat.le_refl _) huniq')

/-- A one-segment entry of the witness and counterexample scenarios. -/
def rtSeg1 (txt : String) : RtSegment :=
  { text := txt, isImportant := "false", reason := "",
    linkedConcept := "", pageNumber := "" }

/-- A one-slide entry of the witness and counterexample scenarios. -/
def rtSlide1 (txt : String) : RtSlide :=
  { conciseSummaryNotes := "", bulletPointNotes := "", keywordNotes := "",
    chartTableSummary := .emptyObj,
    segments := some [("segment1", rtSeg1 txt)] }

/-- The stored document of the witness and counterexample scenarios. -/
def mkRtDoc1 (txt : String) : RtDoc := [("slide1", rtSlide1 txt)]

/-- Witness for `move_segment_delete` at a concrete input: deleting the
unique occurrence of `"y"` from `"x y z"`. -/
theorem move_segment_delete_witness :
    move_segment (mkRtDoc1 "x y z") 1 0 "y" =
      .ok (setAssoc (mkRtDoc1 "x y z") (slideKeyStr 1)
        { rtSlide1 "x y z" with
          segments := some (setAssoc [("segment1", rtSeg1 "x y z")] (segKeyStr 1)
            { rtSeg1 "x y z" with
              text := normalizeWs (pyStrip (pyReplace "x y z" "y" "")) }) }) ∧
    pyReplace "x y z" "y" "" = ⟨"x ".data ++ " z".data⟩ :=
  ⟨(move_segment_delete (mkRtDoc1 "x y z") 1 "y" (rtSlide1 "x y z")
      [("segment1", rtSeg1 "x y z")] (rtSeg1 "x y z")
      (by decide) (by decide) (by decide) (by decide) (by decide)).1,
    (move_segment_delete (mkRtDoc1 "x y z") 1 "y" (rtSlide1 "x y z")
      [("segment1", rtSeg1 "x y z")] (rtSeg1 "x y z")
      (by decide) (by decide) (by decide) (by decide) (by decide)).2
      "x ".data " z".data (by decide) (by decide)⟩

/-- **C2 counterexample**: with source text `"ab ab"` and literal text
`"ab"` (which occurs twice), deletion stores `""`: *both* occurrences are
removed, whereas removing exactly one occurrence would leave `" ab"` or
`"ab "`, whose whitespace-normalised form is `"ab"` — so the claim's
"removes exactly one occurrence, normalised rest unchanged" fails. -/
theorem move_segment_delete_cex :
    move_segment_persist (mkRtDoc1 "ab ab") 1 0 "ab" = mkRtDoc1 "" ∧
    normalizeWs (pyStrip " ab") = "ab" ∧
    normalizeWs (pyStrip "ab ") = "ab" ∧
    ("" : String) ≠ "ab" := by
  refine ⟨by decide, by decide, by decide, by decide⟩

/-! ## Claim C9: move-segment failure leaves the document unchanged -/

/-- **C9**: when the literal text is not a substring of the source
segment's current text, move-segment fails with the "not found" error;
and whenever `move_segment` fails (with any error), the persisted
document is unchanged — the endpoint writes `result.json` only after the
whole removal-and-splice pass has succeeded. -/
theorem move_segment_not_found (doc : RtDoc) (start_slide target_slide : Int)
    (t : String) (slide : RtSlide) (segs : List (String × RtSegment))
    (entry : RtSegment)
    (h1 : getAssoc doc (slideKeyStr start_slide) = some slide)
    (h2 : slide.segments = some segs)
    (h3 : getAssoc segs (segKeyStr start_slide) = some entry)
    (ht : t ≠ "")
    (hnot : pyContains entry.text t = false) :
    move_segment doc start_slide target_slide t =
      .error "Text to move not found in the source segment" ∧
    (∀ (d : RtDoc) (s tg : Int) (u e : String),
      move_segment d s tg u = .error e → move_segment_persist d s tg u = d) := by
  constructor
  · simp only [move_segment, if_neg ht, h1, h2, h3, hnot]
    simp
  · intro d s tg u e h
    rw [move_segment_persist, h]

/-- Witness for `move_segment_not_found` at a concrete input. -/
theorem move_segment_not_found_witness :
    move_segment (mkRtDoc1 "hello world") 1 2 "xyz" =
      .error "Text to move not found in the source segment" ∧
    move_segment_persist (mkRtDoc1 "hello world") 1 2 "xyz" =
      mkRtDoc1 "hello world" := by
  have h := move_segment_not_found (mkRtDoc1 "hello world") 1 2 "xyz"
    (rtSlide1 "hello world") [("segment1", rtSeg1 "hello world")]
    (rtSeg1 "hello world")
    (by decide) (by decide) (by decide) (by decide) (by decide)
  exact ⟨h.1, h.2 _ 1 2 "xyz" _ h.1⟩

/-! ## Claims C3 and C5: the classification loop -/

/-- The window centre after the first `i` batches of the loop have been
processed. -/
def centreAfter (oracle : Oracle) (slides : List Slide) (window : Int)
    (batches : List String) (i : Nat) : Int :=
  ((batches.take i).foldl (mappingStep oracle slides window)
    (initialCentre slides, [])).1

/-- The mapping lists the adapter hands back for each batch along the
run, following the centre updates. -/
def batchResponses (oracle : Oracle) (slides : List Slide) (window : Int) :
    Int → List String → List (List Mapping)
  | _, [] => []
  | c, b :: bs =>
    call_mapping_api oracle b (build_slide_prompt (slice_slides slides c window)) ::
      batchResponses oracle slides window
        (mappingStep oracle slides window (c, []) b).1 bs

theorem mappingStep_centre_acc_free (oracle : Oracle) (slides : List Slide)
    (window : Int) (c : Int) (acc : List Mapping) (b : String) :
    (mappingStep oracle slides window (c, acc) b).1 =
      (mappingStep oracle slides window (c, []) b).1 := by
  rw [mappingStep, mappingStep]
  split
  · split <;> rfl
  · rfl

theorem mappingStep_acc (oracle : Oracle) (slides : List Slide) (window : Int)
    (c : Int) (acc : List Mapping) (b : String) :
    (mappingStep oracle slides window (c, acc) b).2 =
      acc ++ call_mapping_api oracle b
        (build_slide_prompt (slice_slides slides c window)) := by
  rw [mappingStep]
  split <;> (try split) <;> rfl

/-- **C3 (amended)**: the adapter performs no coverage validation — it
returns the decoded `mappings` field of the oracle response unchanged,
and the loop accumulates exactly the concatenation of the oracle's
per-batch responses, with nothing dropped, added or rejected. -/
theorem call_mapping_api_no_validation :
    (∀ (oracle : Oracle) (segments_block slide_block : String),
      call_mapping_api oracle segments_block slide_block =
        (oracle segments_block slide_block).mappings) ∧
    (∀ (oracle : Oracle) (slides : List Slide) (window : Int)
        (batches : List String) (c : Int) (acc : List Mapping),
      (batches.foldl (mappingStep oracle slides window) (c, acc)).2 =
        acc ++ (batchResponses oracle slides window c batches).flatten) := by
  refine ⟨fun _ _ _ => rfl, ?_⟩
  intro oracle slides window batches
  induction batches with
  | nil => intro c acc; simp [batchResponses]
  | cons b bs ih =>
    intro c acc
    rw [List.foldl_cons]
    rcases hst : mappingStep oracle slides window (c, acc) b with ⟨c1, a1⟩
    have hc1 : c1 = (mappingStep oracle slides window (c, []) b).1 := by
      rw [← mappingStep_centre_acc_free oracle slides window c acc b, hst]
    have ha1 : a1 = acc ++ call_mapping_api oracle b
        (build_slide_prompt (slice_slides slides c window)) := by
      rw [← mappingStep_acc oracle slides window c acc b, hst]
    rw [ih c1 a1, batchResponses]
    rw [ha1, hc1]
    simp

/-- **C3 counterexample**: for the single batch built from segments 1 and
2, an oracle response containing only segment 1 is returned as-is: the
returned mapping list's segment ids are `[1]`, not `{1, 2}`, and no
error is surfaced (the adapter returns a plain list, never a failure). -/
theorem call_mapping_api_cex :
    merge_segments [⟨1, "A"⟩, ⟨2, "B"⟩] 1000 500 =
      [snippet ⟨1, "A"⟩ ++ snippet ⟨2, "B"⟩] ∧
    call_mapping_api (fun _ _ => ⟨[⟨1, 5⟩]⟩)
      (snippet ⟨1, "A"⟩ ++ snippet ⟨2, "B"⟩) "" = [⟨1, 5⟩] ∧
    (call_mapping_api (fun _ _ => ⟨[⟨1, 5⟩]⟩)
      (snippet ⟨1, "A"⟩ ++ snippet ⟨2, "B"⟩) "").map Mapping.segment_id ≠
      [1, 2] ∧
    (2 : Int) ∉ (call_mapping_api (fun _ _ => ⟨[⟨1, 5⟩]⟩)
      (snippet ⟨1, "A"⟩ ++ snippet ⟨2, "B"⟩) "").map Mapping.segment_id := by
  refine ⟨by decide, rfl, by decide, by decide⟩

theorem foldl_max_spec (vs : List Mapping) (a : Int) :
    a ≤ vs.foldl (fun x m => max x m.slide_id) a ∧
    (∀ m ∈ vs, m.slide_id ≤ vs.foldl (fun x m => max x m.slide_id) a) ∧
    (vs.foldl (fun x m => max x m.slide_id) a = a ∨
      ∃ m ∈ vs, vs.foldl (fun x m => max x m.slide_id) a = m.slide_id) := by
  induction vs generalizing a with
  | nil => exact ⟨le_refl a, fun m hm => absurd hm (List.not_mem_nil m), Or.inl rfl⟩
  | cons m t ih =>
    obtain ⟨h1, h2, h3⟩ := ih (max a m.slide_id)
    rw [List.foldl_cons]
    refine ⟨le_trans (le_max_left _ _) h1, ?_, ?_⟩
    · intro x hx
      rcases List.mem_cons.1 hx with rfl | hmem
      · exact le_trans (le_max_right _ _) h1
      · exact h2 x hmem
    · rcases h3 with he | ⟨w, hw, he⟩
      · rcases max_choice a m.slide_id with hm | hm
        · exact Or.inl (by rw [he, hm])
        · exact Or.inr ⟨m, List.mem_cons_self _ _, by rw [he, hm]⟩
      · exact Or.inr ⟨w, List.mem_cons_of_mem _ hw, he⟩

/-- **C5**: the initial centre is the first candidate (non-meta) slide's
number, or 1 when there is none; after batch `i`, the centre becomes
`max(valid slide ids) - 1` when the batch's mappings contain at least one
`slide_id ≠ -1`, and is unchanged otherwise (`maxSlideId` is indeed the
maximum of the valid mappings' slide ids). -/
theorem centre_tracking (oracle : Oracle) (image_captioning_data : List Slide)
    (window : Int) (batches : List String) (i : Nat)
    (hi : i < batches.length) :
    (initialCentre [] = 1) ∧
    (∀ (s : Slide) (rest : List Slide), initialCentre (s :: rest) = s.slide_number) ∧
    ((call_mapping_api oracle batches[i]
        (build_slide_prompt (slice_slides (candidates image_captioning_data)
          (centreAfter oracle (candidates image_captioning_data) window batches i)
          window))).filter (fun m => decide (m.slide_id ≠ -1)) = [] →
      centreAfter oracle (candidates image_captioning_data) window batches (i + 1) =
        centreAfter oracle (candidates image_captioning_data) window batches i) ∧
    (∀ (v : Mapping) (vs : List Mapping),
      (call_mapping_api oracle batches[i]
        (build_slide_prompt (slice_slides (candidates image_captioning_data)
          (centreAfter oracle (candidates image_captioning_data) window batches i)
          window))).filter (fun m => decide (m.slide_id ≠ -1)) = v :: vs →
      centreAfter oracle (candidates image_captioning_data) window batches (i + 1) =
        maxSlideId v vs - 1) ∧
    (∀ (v : Mapping) (vs : List Mapping),
      v.slide_id ≤ maxSlideId v vs ∧
      (∀ m ∈ vs, m.slide_id ≤ maxSlideId v vs) ∧
      (maxSlideId v vs = v.slide_id ∨ ∃ m ∈ vs, maxSlideId v vs = m.slide_id)) := by
  refine ⟨rfl, fun s rest => rfl, ?_, ?_, ?_⟩
  · intro hfilter
    rw [centreAfter, List.take_succ, List.getElem?_eq_getElem hi]
    rw [List.foldl_append]
    rcases hst : (batches.take i).foldl
        (mappingStep oracle (candidates image_captioning_data) window)
        (initialCentre (candidates image_captioning_data), []) with ⟨c0, a0⟩
    have hc0 : c0 = centreAfter oracle (candidates image_captioning_data)
        window batches i := by
      rw [centreAfter, hst]
    rw [← hc0] at hfilter ⊢
    simp only [Option.toList_some, List.foldl_cons, List.foldl_nil]
    rw [mappingStep]
    split
    · split
      · rfl
      · next heq =>
        rw [hfilter] at heq
        cases heq
    · rfl
  · intro v vs hfilter
    rw [centreAfter, List.take_succ, List.getElem?_eq_getElem hi]
    rw [List.foldl_append]
    rcases hst : (batches.take i).foldl
        (mappingStep oracle (candidates image_captioning_data) window)
        (initialCentre (candidates image_captioning_data), []) with ⟨c0, a0⟩
    have hc0 : c0 = centreAfter oracle (candidates image_captioning_data)
        window batches i := by
      rw [centreAfter, hst]
    rw [← hc0] at hfilter
    simp only [Option.toList_some, List.foldl_cons, List.foldl_nil]
    rw [mappingStep]
    split
    · split
      · next heq =>
        rw [hfilter] at heq
        cases heq
      · next v' vs' heq =>
        rw [hfilter] at heq
        injection heq with h1 h2
        rw [h1, h2]
    · next hne =>
      rw [Decidable.not_not] at hne
      rw [hne] at hfilter
      simp at hfilter
  · intro v vs
    obtain ⟨h1, h2, h3⟩ := foldl_max_spec vs v.slide_id
    exact ⟨h1, h2, by rw [maxSlideId]; tauto⟩

/-- Witness for `centre_tracking` at a concrete input: one batch, oracle
answering `{segment 1 ↦ slide 3}`, so the next centre is `3 - 1 = 2`. -/
theorem centre_tracking_witness :
    centreAfter (fun _ _ => ⟨[⟨1, 3⟩]⟩) (candidates []) 6 ["b"] 1 = 2 := by
  have h := (centre_tracking (fun _ _ => ⟨[⟨1, 3⟩]⟩) [] 6 ["b"] 0
    (by decide)).2.2.2.1 ⟨1, 3⟩ [] (by decide)
  rw [h]
  decide

/-! ## Claim C4: splicing rules of the post-process pass -/

theorem ensureSlide_of_some (doc : RtDoc) (k : String)
    (h : (getAssoc doc k).isSome) : ensureSlide doc k = doc := by
  rw [ensureSlide, if_pos h]

theorem getAssoc_ensureSlide_ne (doc : RtDoc) (k k' : String) (h : k ≠ k') :
    getAssoc (ensureSlide doc k) k' = getAssoc doc k' := by
  rw [ensureSlide]
  split
  · rfl
  · exact getAssoc_append_single_ne doc k newRtSlide k' h

/-- The value stored at the target key after the three creation guards,
when slide, `Segments` dict and main segment all exist already. -/
theorem getAssoc_guards_of_present (doc : RtDoc) (k sk : String) (ts : RtSlide)
    (segs : List (String × RtSegment)) (entry : RtSegment)
    (h1 : getAssoc doc k = some ts) (h2 : ts.segments = some segs)
    (h3 : getAssoc segs sk = some entry) :
    getAssoc (ensureMainSegment (ensureSegments (ensureSlide doc k) k) k sk) k =
      some ts := by
  rw [ensureSlide_of_some doc k (by simp [h1])]
  rw [ensureMainSegment, getAssoc_modifySlide_self, ensureSegments,
    getAssoc_modifySlide_self, h1]
  simp [h2, h3]

theorem getSegText_setSegText (doc : RtDoc) (k sk v : String) (ts : RtSlide)
    (segs : List (String × RtSegment)) (entry : RtSegment)
    (h1 : getAssoc doc k = some ts) (h2 : ts.segments = some segs)
    (h3 : getAssoc segs sk = some entry) :
    getSegText (setSegText doc k sk v) k sk = some v := by
  have hmap := getAssoc_mapIf_self segs sk (fun e => { e with text := v })
  rw [h3] at hmap
  simp only [beq_iff_eq] at hmap
  simp [getSegText, setSegText, getAssoc_modifySlide_self, h1, h2, hmap]

/-- **C4**: post-process splices the per-target concatenation of the
moved fragments after the existing aggregate text when the target slide
precedes the processed slide, and before it when the target follows; a
missing target slide is created with empty summary fields.  In
particular, moving `"z"` from slide 2 to slide 1 with aggregate text
`"x y"` yields `"x y z"`, and from slide 1 to slide 2 yields
`"z x y"`. -/
theorem post_process_splice (doc : RtDoc) (N t : Int) (fs : List MoveInfo)
    (ts : RtSlide) (segs : List (String × RtSegment)) (entry : RtSegment)
    (h1 : getAssoc doc (slideKeyStr t) = some ts)
    (h2 : ts.segments = some segs)
    (h3 : getAssoc segs (segKeyStr t) = some entry)
    (hne : entry.text ≠ "") :
    (t < N →
      getSegText (spliceTarget N doc (t, fs)) (slideKeyStr t) (segKeyStr t) =
        some (pyStrip (entry.text ++ " " ++
          String.intercalate " " (fs.map MoveInfo.text)))) ∧
    (t > N →
      getSegText (spliceTarget N doc (t, fs)) (slideKeyStr t) (segKeyStr t) =
        some (pyStrip (String.intercalate " " (fs.map MoveInfo.text) ++ " " ++
          entry.text))) ∧
    (∀ doc' : RtDoc, getAssoc doc' (slideKeyStr t) = none → t ≠ N →
      getAssoc (spliceTarget N doc' (t, fs)) (slideKeyStr t) =
        some { newRtSlide with segments := some [(segKeyStr t,
          { newRtSegment with
            text := pyStrip (String.intercalate " "
              (fs.map MoveInfo.text)) })] }) ∧
    post_process_slide [("slide1", rtSlide1 "x y")] 2
        [("slide1", some [("segment5", "z")])] =
      [("slide1", rtSlide1 "x y z")] ∧
    post_process_slide [("slide2",
        { rtSlide1 "x y" with segments := some [("segment2", rtSeg1 "x y")] })] 1
        [("slide2", some [("segment5", "z")])] =
      [("slide2",
        { rtSlide1 "x y" with segments := some [("segment2", rtSeg1 "z x y")] })] := by
  have hd3 := getAssoc_guards_of_present doc (slideKeyStr t) (segKeyStr t)
    ts segs entry h1 h2 h3
  have hex : getSegText (ensureMainSegment (ensureSegments
      (ensureSlide doc (slideKeyStr t)) (slideKeyStr t)) (slideKeyStr t)
      (segKeyStr t)) (slideKeyStr t) (segKeyStr t) = some entry.text := by
    simp [getSegText, hd3, h2, h3]
  refine ⟨?_, ?_, ?_, by decide, by decide⟩
  · intro hlt
    simp only [spliceTarget]
    rw [if_pos hlt, hex]
    have hgetD : (some entry.text).getD "" = entry.text := rfl
    rw [hgetD, if_pos hne]
    exact getSegText_setSegText _ _ _ _ ts segs entry hd3 h2 h3
  · intro hgt
    simp only [spliceTarget]
    rw [if_neg (by omega : ¬ t < N), if_pos hgt, hex]
    have hgetD : (some entry.text).getD "" = entry.text := rfl
    rw [hgetD, if_pos hne]
    exact getSegText_setSegText _ _ _ _ ts segs entry hd3 h2 h3
  · intro doc' hnone hne2
    have hd1 : ensureSlide doc' (slideKeyStr t) = doc' ++ [(slideKeyStr t, newRtSlide)] := by
      rw [ensureSlide, if_neg (by simp [hnone])]
    have hget1 : getAssoc (ensureSlide doc' (slideKeyStr t)) (slideKeyStr t) =
        some newRtSlide := by
      rw [hd1, getAssoc_append_of_none _ _ _ hnone]
      simp [getAssoc, List.find?_cons]
    have hget2 : getAssoc (ensureSegments (ensureSlide doc' (slideKeyStr t))
        (slideKeyStr t)) (slideKeyStr t) = some newRtSlide := by
      rw [ensureSegments, getAssoc_modifySlide_self, hget1]
      rfl
    have hget3 : getAssoc (ensureMainSegment (ensureSegments
        (ensureSlide doc' (slideKeyStr t)) (slideKeyStr t)) (slideKeyStr t)
        (segKeyStr t)) (slideKeyStr t) =
        some { newRtSlide with
          segments := some [(segKeyStr t, newRtSegment)] } := by
      rw [ensureMainSegment, getAssoc_modifySlide_self, hget2]
      rfl
    have hex' : getSegText (ensureMainSegment (ensureSegments
        (ensureSlide doc' (slideKeyStr t)) (slideKeyStr t)) (slideKeyStr t)
        (segKeyStr t)) (slideKeyStr t) (segKeyStr t) = some "" := by
      simp only [getSegText, hget3, Option.bind_some]
      simp [getAssoc, List.find?_cons, newRtSegment]
    rcases lt_or_gt_of_ne hne2 with hlt | hgt
    · simp only [spliceTarget]
      rw [if_pos hlt, hex']
      have hgetD : (some "").getD "" = "" := rfl
      rw [hgetD, if_neg (by simp)]
      have := getSegText_setSegText (ensureMainSegment (ensureSegments
        (ensureSlide doc' (slideKeyStr t)) (slideKeyStr t)) (slideKeyStr t)
        (segKeyStr t)) (slideKeyStr t) (segKeyStr t)
        (pyStrip (String.intercalate " " (fs.map MoveInfo.text)))
        { newRtSlide with segments := some [(segKeyStr t, newRtSegment)] }
        [(segKeyStr t, newRtSegment)] newRtSegment hget3 rfl
        (by simp [getAssoc, List.find?_cons])
      rw [setSegText, getAssoc_modifySlide_self, hget3]
      simp only [Option.map_some]
      have hinner := getAssoc_mapIf_self [(segKeyStr t, newRtSegment)]
        (segKeyStr t) (fun e => { e with
          text := pyStrip (String.intercalate " " (fs.map MoveInfo.text)) })
      simp only [getAssoc, List.find?_cons_of_pos, Option.map_some] at hinner
      simp [newRtSegment]
    · simp only [spliceTarget]
      rw [if_neg (by omega : ¬ t < N), if_pos hgt, hex']
      have hgetD : (some "").getD "" = "" := rfl
      rw [hgetD, if_neg (by simp)]
      rw [setSegText, getAssoc_modifySlide_self, hget3]
      simp only [Option.map_some]
      simp [newRtSegment]

/-- Witness for `post_process_splice` at a concrete input. -/
theorem post_process_splice_witness :
    getSegText (spliceTarget 2 [("slide1", rtSlide1 "x y")]
        (1, [⟨"z", 1⟩])) (slideKeyStr 1) (segKeyStr 1) =
      some (pyStrip ((rtSeg1 "x y").text ++ " " ++
        String.intercalate " " (([⟨"z", 1⟩] : List MoveInfo).map MoveInfo.text))) :=
  (post_process_splice [("slide1", rtSlide1 "x y")] 2 1 [⟨"z", 1⟩]
    (rtSlide1 "x y") [("segment1", rtSeg1 "x y")] (rtSeg1 "x y")
    (by decide) (by decide) (by decide) (by decide)).1 (by decide)

/-! ## Claim C10: origin slide untouched when its aggregate key is absent -/

theorem getAssoc_spliceTarget_ne (N : Int) (doc : RtDoc) (t : Int)
    (fs : List MoveInfo) (k' : String) (h : slideKeyStr t ≠ k') :
    getAssoc (spliceTarget N doc (t, fs)) k' = getAssoc doc k' := by
  have hchain : ∀ d : RtDoc,
      getAssoc (ensureMainSegment (ensureSegments (ensureSlide d (slideKeyStr t))
        (slideKeyStr t)) (slideKeyStr t) (segKeyStr t)) k' = getAssoc d k' := by
    intro d
    rw [ensureMainSegment, getAssoc_modifySlide_ne _ _ _ _ h, ensureSegments,
      getAssoc_modifySlide_ne _ _ _ _ h, getAssoc_ensureSlide_ne _ _ _ h]
  simp only [spliceTarget]
  split
  · rw [setSegText, getAssoc_modifySlide_ne _ _ _ _ h, hchain]
  · split
    · rw [setSegText, getAssoc_modifySlide_ne _ _ _ _ h, hchain]
    · exact hchain doc

/-- Generic preservation of a predicate along a left fold. -/
theorem foldl_preserve {β σ : Type} (P : σ → Prop) (f : σ → β → σ)
    (l : List β) (s : σ) (hs : P s)
    (hf : ∀ st x, x ∈ l → P st → P (f st x)) : P (l.foldl f s) := by
  induction l generalizing s with
  | nil => exact hs
  | cons x xs ih =>
    rw [List.foldl_cons]
    exact ih (f s x) (hf s x (List.mem_cons_self _ _) hs)
      (fun st y hy => hf st y (List.mem_cons_of_mem _ hy))

theorem classifySegments_moves_ne (mapped : MappedData) (N : Int) :
    ∀ mi ∈ (classifySegments mapped N).2, mi.target_slide ≠ N := by
  rw [classifySegments]
  refine foldl_preserve (fun st => ∀ mi ∈ st.2, mi.target_slide ≠ N)
    (classifySlide N) mapped ([], []) (by intro mi h; cases h) ?_
  intro st p _ hst
  rw [classifySlide]
  split
  · exact hst
  · split
    · exact hst
    · refine foldl_preserve (fun st => ∀ mi ∈ st.2, mi.target_slide ≠ N)
        (classifySeg N (parseIntStr (pyReplace p.1 "slide" ""))) _ st hst ?_
      intro st' q _ hst'
      rw [classifySeg]
      split
      · exact hst'
      · split
        · exact hst'
        · next hm =>
          intro mi hmi
          rcases List.mem_append.1 hmi with hmem | hmem
          · exact hst' mi hmem
          · rcases List.mem_singleton.1 hmem with rfl
            exact hm

theorem groupByTarget_keys (moves : List MoveInfo) (P : Int → Prop)
    (h : ∀ mi ∈ moves, P mi.target_slide) :
    ∀ p ∈ groupByTarget moves, P p.1 := by
  rw [groupByTarget]
  refine foldl_preserve
    (fun acc : List (Int × List MoveInfo) => ∀ p ∈ acc, P p.1)
    (fun acc mi =>
      if acc.any fun p => p.1 == mi.target_slide then
        acc.map fun p => if p.1 == mi.target_slide then (p.1, p.2 ++ [mi]) else p
      else acc ++ [(mi.target_slide, [mi])]) moves []
    (by intro p hp; cases hp) ?_
  intro acc mi hmi hacc
  dsimp only
  split
  · intro p hp
    obtain ⟨q, hq, hqe⟩ := List.mem_map.1 hp
    split at hqe
    · rw [← hqe]
      exact hacc q hq
    · rw [← hqe]
      exact hacc q hq
  · intro p hp
    rcases List.mem_append.1 hp with hmem | hmem
    · exact hacc p hmem
    · rcases List.mem_singleton.1 hmem with rfl
      exact h mi hmi

/-- **C10**: when the origin slide's `Segments` dict lacks the aggregate
key `segment{N}`, the post-process pass leaves the origin update step as
the identity, still applies the splice step to the unchanged document,
and the origin slide's entry is exactly what it was before — so a
fragment classified to another slide appears both in the untouched
origin text and in the target slide, as the concrete run shows. -/
theorem post_process_origin_untouched (doc : RtDoc) (N : Int)
    (mapped : MappedData) (ts : RtSlide) (segs : List (String × RtSegment))
    (h1 : getAssoc doc (slideKeyStr N) = some ts)
    (h2 : ts.segments = some segs)
    (h3 : getAssoc segs (segKeyStr N) = none) :
    updateOrigin doc N (classifySegments mapped N).1 = doc ∧
    post_process_slide doc N mapped =
      (groupByTarget (classifySegments mapped N).2).foldl (spliceTarget N) doc ∧
    getAssoc (post_process_slide doc N mapped) (slideKeyStr N) =
      getAssoc doc (slideKeyStr N) ∧
    post_process_slide
        [("slide1", { rtSlide1 "x y z" with
          segments := some [("segment99", rtSeg1 "x y z")] })] 1
        [("slide1", some [("segment5", "x y")]),
         ("slide2", some [("segment6", "z")])] =
      [("slide1", { rtSlide1 "x y z" with
          segments := some [("segment99", rtSeg1 "x y z")] }),
       ("slide2", { newRtSlide with
          segments := some [("segment2",
            { newRtSegment with text := "z" })] })] ∧
    pyContains "x y z" "z" = true := by
  have hup : updateOrigin doc N (classifySegments mapped N).1 = doc := by
    simp only [updateOrigin, h1, h2, h3]
  have hpp : post_process_slide doc N mapped =
      (groupByTarget (classifySegments mapped N).2).foldl (spliceTarget N) doc := by
    rw [post_process_slide, hup]
  refine ⟨hup, hpp, ?_, by decide, by decide⟩
  rw [hpp]
  have hkeys : ∀ p ∈ groupByTarget (classifySegments mapped N).2,
      slideKeyStr p.1 ≠ slideKeyStr N := by
    intro p hp
    have hne := groupByTarget_keys (classifySegments mapped N).2 (· ≠ N)
      (classifySegments_moves_ne mapped N) p hp
    exact fun heq => hne (slideKeyStr_inj heq)
  refine foldl_preserve
    (fun d => getAssoc d (slideKeyStr N) = getAssoc doc (slideKeyStr N))
    (spliceTarget N) _ doc rfl ?_
  intro d p hp hd
  rcases p with ⟨t, fs⟩
  rw [getAssoc_spliceTarget_ne N d t fs (slideKeyStr N) (hkeys _ hp), hd]

/-- Witness for `post_process_origin_untouched` at a concrete input. -/
theorem post_process_origin_untouched_witness :
    getAssoc (post_process_slide
        [("slide1", { rtSlide1 "w" with
          segments := some [("segment9", rtSeg1 "w")] })] 1
        [("slide2", some [("segment6", "w")])]) (slideKeyStr 1) =
      getAssoc
        [("slide1", { rtSlide1 "w" with
          segments := some [("segment9", rtSeg1 "w")] })] (slideKeyStr 1) :=
  (post_process_origin_untouched
    [("slide1", { rtSlide1 "w" with
      segments := some [("segment9", rtSeg1 "w")] })] 1
    [("slide2", some [("segment6", "w")])]
    { rtSlide1 "w" with segments := some [("segment9", rtSeg1 "w")] }
    [("segment9", rtSeg1 "w")]
    (by decide) (by decide) (by decide)).2.2.1

/-! ## Claim C6: result assembly, ordering and the end-to-end example -/

/-- **C6**: `save_results` emits slides sorted ascending by the numeric
value of their key (`slide0`, i.e. `slide_id = -1`, carrying key value
`-1` and hence coming first) and, within each slide, segments sorted
ascending by numeric id; and the full pipeline on the spec's end-to-end
example produces exactly the expected `ResultBySlide`. -/
theorem save_results_spec :
    (∀ (mappings : List Mapping) (segments : List Segment),
      ((save_results mappings segments).map fun p => slideKeyVal p.1).Sorted (· ≤ ·)) ∧
    (∀ (mappings : List Mapping) (segments : List Segment),
      ∀ p ∈ save_results mappings segments,
        (p.2.segs.map fun q => segKeyVal q.1).Sorted (· ≤ ·)) ∧
    segment_mapping (fun _ _ => ⟨[⟨1, 1⟩, ⟨2, 2⟩, ⟨3, -1⟩]⟩)
        [⟨1, "content", ["x"], [], ""⟩, ⟨2, "content", ["y"], [], ""⟩]
        [⟨1, "A"⟩, ⟨2, "B"⟩, ⟨3, "C"⟩] 6 1000 500 =
      [("slide0", ⟨[("segment3", ⟨"C"⟩)]⟩),
       ("slide1", ⟨[("segment1", ⟨"A"⟩)]⟩),
       ("slide2", ⟨[("segment2", ⟨"B"⟩)]⟩)] := by
  refine ⟨?_, ?_, by decide⟩
  · intro mappings segments
    haveI : IsTotal (String × SlideOut)
        (fun a b => slideKeyVal a.1 ≤ slideKeyVal b.1) :=
      ⟨fun a b => Int.le_total _ _⟩
    haveI : IsTrans (String × SlideOut)
        (fun a b => slideKeyVal a.1 ≤ slideKeyVal b.1) :=
      ⟨fun _ _ _ hab hbc => le_trans hab hbc⟩
    have hs := List.sorted_insertionSort
      (fun (a b : String × SlideOut) => slideKeyVal a.1 ≤ slideKeyVal b.1)
      (mappings.foldl (saveStep segments) [])
    rw [save_results, List.map_map, List.Sorted, List.pairwise_map]
    exact hs
  · intro mappings segments p hp
    haveI : IsTotal (String × SegOut)
        (fun a b => segKeyVal a.1 ≤ segKeyVal b.1) :=
      ⟨fun a b => Int.le_total _ _⟩
    haveI : IsTrans (String × SegOut)
        (fun a b => segKeyVal a.1 ≤ segKeyVal b.1) :=
      ⟨fun _ _ _ hab hbc => le_trans hab hbc⟩
    rw [save_results] at hp
    obtain ⟨q, hq, rfl⟩ := List.mem_map.1 hp
    have hs := List.sorted_insertionSort
      (fun (a b : String × SegOut) => segKeyVal a.1 ≤ segKeyVal b.1) q.2.segs
    rw [List.Sorted, List.pairwise_map]
    exact hs

/-- Witness for `save_results_spec` at a concrete input. -/
theorem save_results_spec_witness :
    (("slide0", (⟨[("segment3", ⟨"C"⟩)]⟩ : SlideOut)) ∈
      save_results [⟨3, -1⟩] [⟨3, "C"⟩]) ∧
    ((("slide0", (⟨[("segment3", ⟨"C"⟩)]⟩ : SlideOut)).2.segs.map
      fun q => segKeyVal q.1).Sorted (· ≤ ·)) :=
  ⟨by decide, save_results_spec.2.1 [⟨3, -1⟩] [⟨3, "C"⟩] _ (by decide)⟩

end SegMap
